import Mathlib

/-!
Verification of the windowed raster-access layer in satsense/generators.py:
the Generator base class (pixel-indexed slicing over a padded cached block),
the FullGenerator sweep iterator (step/grid-indexed), and the
RandomSampleGenerator class-balanced sampler.  Python integers are modelled
as Nat/Int, fallible operations return Except, and the two numpy random
streams involved in sampling are modelled as explicit input streams.
-/

namespace Satsense

/-- Python exception kinds raised (explicitly or implicitly) by the code:
RuntimeError is raised by the iterators when no image is loaded, TypeError
arises from operations on None (subscripting None, comparing int with None),
ValueError from numpy choice over an empty range. -/
inductive PyErr where
  | runtimeError
  | typeError
  | valueError
  deriving DecidableEq

/-- A window shape (rows, cols), one of the tuples passed to load_image. -/
abbrev Window := ℕ × ℕ

/-- Python tuple comparison a >= b (lexicographic) on window shapes, used by
sorted(windows, reverse=True). -/
def windowGe (a b : Window) : Bool :=
  decide (b.1 < a.1) || (decide (a.1 = b.1) && decide (b.2 ≤ a.2))

/-- Insert a window into a list that is sorted in descending lexicographic
order, keeping it sorted. -/
def insertDesc (w : Window) : List Window → List Window
  | [] => [w]
  | x :: xs => if windowGe x w then x :: insertDesc w xs else w :: x :: xs

/-- Model of sorted(windows, reverse=True) at generators.py line 37:
descending lexicographic insertion sort. -/
def sortDesc : List Window → List Window
  | [] => []
  | w :: ws => insertDesc w (sortDesc ws)

/-- Model of max(math.ceil(w[i]) for w in windows) for one axis selector f
(generators.py lines 38-39).  math.ceil of a natural number is the number
itself; Python max over a (nonempty) iterable is modelled as a fold with
neutral element 0. -/
def maxExtent (ws : List Window) (f : Window → ℕ) : ℕ :=
  (ws.map f).foldr max 0

/-- The padding stored by Generator.load_image (lines 38-39): per axis, the
maximum over the windows of math.ceil of the window extent on that axis. -/
def paddingOf (ws : List Window) : ℕ × ℕ :=
  (maxExtent ws Prod.fst, maxExtent ws Prod.snd)

/-- Padding formula as the specification words it: per axis, the ceiling of
half the maximum window extent on that axis.  Written from the spec for
comparison with paddingOf, which is translated from the source. -/
def specPaddingOf (ws : List Window) : ℕ × ℕ :=
  ((⌈(maxExtent ws Prod.fst : ℚ) / 2⌉).toNat, (⌈(maxExtent ws Prod.snd : ℚ) / 2⌉).toNat)

/-- State of a (pixel-indexed) Generator instance: the raster shape consumed
from the Image collaborator, and the three fields set by load_image, all None
after __init__ (generators.py lines 20-23).  The cache is modelled by its
dimensions: the claims under verification only concern shapes and positions,
never pixel values. -/
structure GenState where
  imageShape : ℕ × ℕ
  windows : Option (List Window)
  padding : Option (ℕ × ℕ)
  cacheDims : Option (ℕ × ℕ)

/-- Generator.__init__ (lines 14-23): the unloaded state. -/
def Generator.init (imageShape : ℕ × ℕ) : GenState :=
  { imageShape := imageShape, windows := none, padding := none, cacheDims := none }

/-- Generator._get_blocks (lines 46-57): per axis the block is
(-padding, image extent + padding). -/
def Generator.get_blocks (imageShape : ℕ × ℕ) (pad : ℕ × ℕ) : (ℤ × ℤ) × (ℤ × ℤ) :=
  ((-(pad.1 : ℤ), (imageShape.1 : ℤ) + pad.1), (-(pad.2 : ℤ), (imageShape.2 : ℤ) + pad.2))

/-- Modelled from the spec: Image.copy_block (satsense/image.py, not under
src/) returns, for each layer, an array spanning exactly the requested block,
so the cached array has the block lengths as its dimensions. -/
def blockDims (block : (ℤ × ℤ) × (ℤ × ℤ)) : ℕ × ℕ :=
  ((block.1.2 - block.1.1).toNat, (block.2.2 - block.2.1).toNat)

/-- Generator.load_image (lines 25-44): stores the windows sorted descending,
the per-axis padding, and the cached block pulled from the image.  The layer
key only selects which channel of the copied block is retained and does not
affect shapes, so it is not modelled. -/
def Generator.load_image (st : GenState) (ws : List Window) : GenState :=
  { st with
    windows := some (sortDesc ws)
    padding := some (paddingOf ws)
    cacheDims := some (blockDims (Generator.get_blocks st.imageShape (paddingOf ws))) }

/-- One axis of Generator._get_slices (lines 97-105): mid = padding + index,
start = mid - math.floor(.5 * window), end = start + window.  On a natural
window extent, math.floor(.5 * w) is w / 2 in natural division; agreement
with the real-valued floor is proved in the theorem for claim C8. -/
def Generator.get_slices_axis (pad : ℕ) (idx : ℤ) (w : ℕ) : ℤ × ℤ :=
  let mid : ℤ := (pad : ℤ) + idx
  let start : ℤ := mid - (w / 2 : ℕ)
  (start, start + w)

/-- Generator._get_slices (lines 79-105) assembled over the two axes. -/
def Generator.get_slices (pad : ℕ × ℕ) (index : ℤ × ℤ) (window : Window) :
    (ℤ × ℤ) × (ℤ × ℤ) :=
  (Generator.get_slices_axis pad.1 index.1 window.1,
   Generator.get_slices_axis pad.2 index.2 window.2)

/-- Length of arr[start:stop] on one axis of a numpy array of length n
(basic slicing with step 1): a negative bound counts from the end, then both
bounds are clipped to [0, n] and an empty range yields 0. -/
def pySliceLen (n : ℕ) (start stop : ℤ) : ℕ :=
  let s := if start < 0 then start + n else start
  let e := if stop < 0 then stop + n else stop
  (max 0 (min e (n : ℤ)) - max 0 (min s (n : ℤ))).toNat

/-- Generator.__getitem__ (lines 59-77), returning the shape of the extracted
sub-array.  Before load_image, self._padding is None so self._padding[i]
inside _get_slices raises TypeError; likewise subscripting the None image
cache raises TypeError. -/
def Generator.getitem (st : GenState) (index : ℤ × ℤ) (window : Window) :
    Except PyErr (ℕ × ℕ) :=
  match st.padding with
  | none => .error .typeError
  | some pad =>
    let slices := Generator.get_slices pad index window
    match st.cacheDims with
    | none => .error .typeError
    | some dims =>
      .ok (pySliceLen dims.1 slices.1.1 slices.1.2, pySliceLen dims.2 slices.2.1 slices.2.2)

/-- Every element of the list is bounded by the folded maximum. -/
lemma le_maxExtent (ws : List Window) (f : Window → ℕ) {w : Window} (hw : w ∈ ws) :
    f w ≤ maxExtent ws f := by
  induction ws with
  | nil => cases hw
  | cons x xs ih =>
    rcases List.mem_cons.mp hw with rfl | h
    · exact le_max_left _ _
    · exact le_trans (ih h) (le_max_right _ _)

/-- The folded maximum of a nonempty list is attained by some element. -/
lemma maxExtent_mem (ws : List Window) (f : Window → ℕ) (h : ws ≠ []) :
    ∃ w ∈ ws, maxExtent ws f = f w := by
  induction ws with
  | nil => exact absurd rfl h
  | cons x xs ih =>
    cases xs with
    | nil =>
      refine ⟨x, List.mem_cons_self _ _, ?_⟩
      simp [maxExtent]
    | cons y ys =>
      obtain ⟨w, hw, hmax⟩ := ih (by simp)
      have hstep : maxExtent (x :: y :: ys) f = max (f x) (maxExtent (y :: ys) f) := rfl
      rcases le_total (maxExtent (y :: ys) f) (f x) with hle | hle
      · exact ⟨x, List.mem_cons_self _ _, by rw [hstep, max_eq_left hle]⟩
      · exact ⟨w, List.mem_cons_of_mem _ hw, by rw [hstep, max_eq_right hle, hmax]⟩

/-- Model of math.ceil(a / b) on naturals as the integer arithmetic
(a + b - 1) / b; agreement with the real-valued ceiling is proved in the
theorem for claim C10. -/
def pyCeilDiv (a b : ℕ) : ℕ := (a + b - 1) / b

/-- State of a FullGenerator instance (generators.py lines 178-295): the
constructor arguments plus the three load_image fields. -/
structure FullGen where
  imageShape : ℕ × ℕ
  step_size : ℕ × ℕ
  offset : ℕ × ℕ
  shape : ℕ × ℕ
  windows : Option (List Window)
  padding : Option (ℕ × ℕ)
  cacheDims : Option (ℕ × ℕ)

/-- FullGenerator.__init__ (lines 194-209): when shape is omitted or falsy it
defaults per axis to math.ceil(image extent / step size). -/
def FullGen.init (imageShape step_size offset : ℕ × ℕ) (shape : Option (ℕ × ℕ)) : FullGen :=
  let shape' := match shape with
    | none => (pyCeilDiv imageShape.1 step_size.1, pyCeilDiv imageShape.2 step_size.2)
    | some s => s
  { imageShape := imageShape, step_size := step_size, offset := offset, shape := shape',
    windows := none, padding := none, cacheDims := none }

/-- FullGenerator._get_blocks (lines 211-224): per axis, with
offset' = offset * step_size, the block is
(offset' - padding, offset' + padding + shape * step_size). -/
def FullGen.get_blocks (g : FullGen) (pad : ℕ × ℕ) : (ℤ × ℤ) × (ℤ × ℤ) :=
  (((g.offset.1 * g.step_size.1 : ℕ) - (pad.1 : ℤ),
    (g.offset.1 * g.step_size.1 : ℕ) + (pad.1 : ℤ) + (g.shape.1 * g.step_size.1 : ℕ)),
   ((g.offset.2 * g.step_size.2 : ℕ) - (pad.2 : ℤ),
    (g.offset.2 * g.step_size.2 : ℕ) + (pad.2 : ℤ) + (g.shape.2 * g.step_size.2 : ℕ)))

/-- Generator.load_image as inherited by FullGenerator: same field updates,
but the block comes from the overridden _get_blocks. -/
def FullGen.load_image (g : FullGen) (ws : List Window) : FullGen :=
  { g with
    windows := some (sortDesc ws)
    padding := some (paddingOf ws)
    cacheDims := some (blockDims (FullGen.get_blocks g (paddingOf ws))) }

/-- One axis of FullGenerator._get_slices (lines 226-253):
mid = padding + math.floor((index + .5) * step_size),
start = mid - math.floor(.5 * window), end = start + window.  On naturals,
math.floor((i + .5) * s) is (2 * i + 1) * s / 2 in natural division;
agreement with the real-valued floor is proved in the theorem for claim C8. -/
def FullGen.get_slices_axis (pad step idx w : ℕ) : ℤ × ℤ :=
  let mid : ℤ := (pad : ℤ) + ((2 * idx + 1) * step / 2 : ℕ)
  let start : ℤ := mid - (w / 2 : ℕ)
  (start, start + w)

/-- FullGenerator._get_slices assembled over the two axes. -/
def FullGen.get_slices (g : FullGen) (pad : ℕ × ℕ) (index : ℕ × ℕ) (window : Window) :
    (ℤ × ℤ) × (ℤ × ℤ) :=
  (FullGen.get_slices_axis pad.1 g.step_size.1 index.1 window.1,
   FullGen.get_slices_axis pad.2 g.step_size.2 index.2 window.2)

/-- Generator.__getitem__ as inherited by FullGenerator, with the overridden
_get_slices; returns the shape of the extracted sub-array. -/
def FullGen.getitem (g : FullGen) (index : ℕ × ℕ) (window : Window) :
    Except PyErr (ℕ × ℕ) :=
  match g.padding with
  | none => .error .typeError
  | some pad =>
    let slices := FullGen.get_slices g pad index window
    match g.cacheDims with
    | none => .error .typeError
    | some dims =>
      .ok (pySliceLen dims.1 slices.1.1 slices.1.2, pySliceLen dims.2 slices.2.1 slices.2.2)

/-- Index stream of FullGenerator.__iter__ (lines 271-274): cells (i, j) in
row-major order over the logical shape, and for each cell one entry per
stored window, in stored order.  Each (i, j, w) entry stands for the yield of
self[i, j, w]. -/
def fullIterIdx (rows cols : ℕ) (ws : List Window) : List (ℕ × ℕ × Window) :=
  (List.range rows).flatMap fun i =>
    (List.range cols).flatMap fun j =>
      ws.map fun w => (i, j, w)

/-- FullGenerator.__iter__ (lines 255-274): raises RuntimeError when no image
cache is loaded (lines 269-270), otherwise enumerates the index stream.  A
loaded generator always has its windows set; iterating a None windows field
would raise TypeError. -/
def FullGen.iter (g : FullGen) : Except PyErr (List (ℕ × ℕ × Window)) :=
  match g.cacheDims with
  | none => .error .runtimeError
  | some _ =>
    match g.windows with
    | none => .error .typeError
    | some ws => .ok (fullIterIdx g.shape.1 g.shape.2 ws)

/-- Loop body sequence of FullGenerator.split (lines 286-295): job counts up,
row_offset = parent row offset + job * chunk_size, and
row_length = min(chunk_size, parent row shape - row_offset); a non-positive
row_length breaks the loop (natural subtraction truncates at 0 exactly where
the Python difference is non-positive).  Each yielded child is a fresh
FullGenerator over the same image and step size. -/
def FullGen.splitGo (g : FullGen) (chunk : ℕ) : ℕ → ℕ → List FullGen
  | _, 0 => []
  | job, fuel + 1 =>
    let row_offset := g.offset.1 + job * chunk
    let row_length := min chunk (g.shape.1 - row_offset)
    if row_length = 0 then []
    else
      FullGen.init g.imageShape g.step_size (row_offset, g.offset.2)
          (some (row_length, g.shape.2)) ::
        FullGen.splitGo g chunk (job + 1) fuel

/-- FullGenerator.split (lines 276-295): chunk_size = math.ceil(rows / n),
then at most n_chunks jobs. -/
def FullGen.split (g : FullGen) (n_chunks : ℕ) : List FullGen :=
  FullGen.splitGo g (pyCeilDiv g.shape.1 n_chunks) 0 n_chunks

/-- Floor of a natural number halved, in the rationals, is natural division
by two. -/
lemma int_floor_nat_div_two (m : ℕ) : ⌊(m : ℚ) / 2⌋ = ((m / 2 : ℕ) : ℤ) := by
  rw [Int.floor_eq_iff]
  refine ⟨?_, ?_⟩
  · rw [le_div_iff₀ (by norm_num : (0 : ℚ) < 2)]
    exact_mod_cast (by omega : m / 2 * 2 ≤ m)
  · rw [div_lt_iff₀ (by norm_num : (0 : ℚ) < 2)]
    exact_mod_cast (by omega : m < (m / 2 + 1) * 2)

/-- Floor of (i + 1/2) * s, in the rationals, is (2i + 1) * s / 2 in natural
division. -/
lemma int_floor_half_step (i s : ℕ) :
    ⌊((i : ℚ) + 1 / 2) * s⌋ = (((2 * i + 1) * s / 2 : ℕ) : ℤ) := by
  have h : ((i : ℚ) + 1 / 2) * s = ((2 * i + 1) * s : ℕ) / 2 := by
    push_cast
    ring
  rw [h, int_floor_nat_div_two]

/-- The integer expression (a + b - 1) / b brackets a from above by less than
one full step of b. -/
lemma pyCeilDiv_bracket (a b : ℕ) (hb : 0 < b) :
    a ≤ b * pyCeilDiv a b ∧ b * pyCeilDiv a b < a + b := by
  unfold pyCeilDiv
  have hq := Nat.div_add_mod (a + b - 1) b
  have hr : (a + b - 1) % b < b := Nat.mod_lt _ hb
  generalize hgen : b * ((a + b - 1) / b) = t at hq ⊢
  omega

/-- Ceiling of a natural division, in the rationals, is (a + b - 1) / b in
natural division. -/
lemma int_ceil_nat_div (a b : ℕ) (hb : 0 < b) :
    ⌈(a : ℚ) / b⌉ = ((pyCeilDiv a b : ℕ) : ℤ) := by
  obtain ⟨h1, h2⟩ := pyCeilDiv_bracket a b hb
  have hb' : (0 : ℚ) < b := by exact_mod_cast hb
  rw [Int.ceil_eq_iff]
  refine ⟨?_, ?_⟩
  · rw [lt_div_iff₀ hb']
    have h2' : ((b * pyCeilDiv a b : ℕ) : ℚ) < ((a + b : ℕ) : ℚ) := by exact_mod_cast h2
    push_cast at h2' ⊢
    nlinarith [h2']
  · rw [div_le_iff₀ hb']
    have h1' : ((a : ℕ) : ℚ) ≤ ((b * pyCeilDiv a b : ℕ) : ℚ) := by exact_mod_cast h1
    push_cast at h1' ⊢
    nlinarith [h1']

/-- Model of np.argwhere(mask.filled(0)) at generators.py line 162: the
row-major list of positions holding a nonzero value.  A mask is a 2-D array
of numbers in which masked-out entries already carry the fill value 0. -/
def argwhere (mask : List (List ℕ)) : List (ℕ × ℕ) :=
  (List.range mask.length).flatMap fun i =>
    (List.range (mask.getD i []).length).flatMap fun j =>
      if (mask.getD i []).getD j 0 ≠ 0 then [(i, j)] else []

/-- Loop body sequence of RandomSampleGenerator.__iter__ (lines 149-166) for
a bounded number of remaining samples.  The stream seeded models the draws of
the RandomState built from the seed (lines 150 and 154: the class choice);
the stream global models the draws of the process-global np.random (line 163:
the position choice).  A choice among n options is modelled as the stream
value mod n, which keeps faithful which stream drives which draw; numpy
raises ValueError when asked to choose from an empty range. -/
def sampleLoop (masks : List (List (List ℕ))) (seeded global : ℕ → ℕ) (ws : List Window) :
    ℕ → ℕ → Except PyErr (List ((ℕ × ℕ) × Window × ℕ))
  | _, 0 => .ok []
  | t, rem + 1 =>
    if masks.length = 0 then .error .valueError
    else
      let truth := seeded t % masks.length
      let mask := masks.getD truth []
      let choices := argwhere mask
      if choices.length = 0 then .error .valueError
      else
        let pos := choices.getD (global t % choices.length) (0, 0)
        match sampleLoop masks seeded global ws (t + 1) rem with
        | .error e => .error e
        | .ok rest => .ok ((ws.map fun w => (pos, w, truth)) ++ rest)

/-- RandomSampleGenerator.__iter__ (lines 145-166): raises RuntimeError when
no image cache is loaded (lines 146-147); with samples left at its default
None, the loop guard sample < self.samples compares int with None and raises
TypeError; otherwise it runs the sampling loop, yielding one
(position, window, class) entry per stored window per sample, each standing
for the yield of (self[i, j, window], truth). -/
def RandomSampleGenerator.iter (st : GenState) (masks : List (List (List ℕ)))
    (seeded global : ℕ → ℕ) (samples : Option ℕ) :
    Except PyErr (List ((ℕ × ℕ) × Window × ℕ)) :=
  match st.cacheDims with
  | none => .error .runtimeError
  | some _ =>
    match samples with
    | none => .error .typeError
    | some k =>
      match st.windows with
      | none => .error .typeError
      | some ws => sampleLoop masks seeded global ws 0 k

/-- C8: the slice computation returns on each axis the half-open range
[start, start + window) where start = mid - floor(window / 2); under the
pixel policy mid = padding + index, and under the step policy
mid = padding + floor((index + 1/2) * step), the floors taken over the
rationals as the spec states them. -/
theorem c8_slice_formulas (pad step idx w : ℕ) (pidx : ℤ) :
    Generator.get_slices_axis pad pidx w =
        ((pad : ℤ) + pidx - ⌊(w : ℚ) / 2⌋, (pad : ℤ) + pidx - ⌊(w : ℚ) / 2⌋ + w) ∧
      FullGen.get_slices_axis pad step idx w =
        ((pad : ℤ) + ⌊((idx : ℚ) + 1 / 2) * step⌋ - ⌊(w : ℚ) / 2⌋,
         (pad : ℤ) + ⌊((idx : ℚ) + 1 / 2) * step⌋ - ⌊(w : ℚ) / 2⌋ + w) := by
  rw [int_floor_nat_div_two, int_floor_half_step]
  exact ⟨rfl, rfl⟩

/-- C9: the materialized block is [-pad, extent + pad) per axis for the
pixel-indexed generator, and [offset * step - pad, offset * step + pad +
shape * step) per axis for the grid-indexed generator. -/
theorem c9_block_ranges (imageShape pad : ℕ × ℕ) (g : FullGen) :
    Generator.get_blocks imageShape pad =
        ((-(pad.1 : ℤ), (imageShape.1 : ℤ) + pad.1),
         (-(pad.2 : ℤ), (imageShape.2 : ℤ) + pad.2)) ∧
      FullGen.get_blocks g pad =
        (((g.offset.1 : ℤ) * g.step_size.1 - pad.1,
          (g.offset.1 : ℤ) * g.step_size.1 + pad.1 + (g.shape.1 : ℤ) * g.step_size.1),
         ((g.offset.2 : ℤ) * g.step_size.2 - pad.2,
          (g.offset.2 : ℤ) * g.step_size.2 + pad.2 + (g.shape.2 : ℤ) * g.step_size.2)) := by
  refine ⟨rfl, ?_⟩
  simp only [FullGen.get_blocks, Prod.mk.injEq]
  refine ⟨⟨?_, ?_⟩, ?_, ?_⟩ <;> push_cast <;> ring

/-- C10: a grid-indexed generator built without an explicit shape defaults
per axis to the ceiling of image extent / step size, taken over the
rationals. -/
theorem c10_default_shape (imageShape step_size offset : ℕ × ℕ)
    (h1 : 0 < step_size.1) (h2 : 0 < step_size.2) :
    (FullGen.init imageShape step_size offset none).shape =
      ((⌈(imageShape.1 : ℚ) / step_size.1⌉).toNat,
       (⌈(imageShape.2 : ℚ) / step_size.2⌉).toNat) := by
  simp only [FullGen.init]
  rw [int_ceil_nat_div _ _ h1, int_ceil_nat_div _ _ h2]
  simp

/-- Witness for C10 at image shape (10, 10), step size (3, 2): the default
shape is (4, 5). -/
theorem c10_default_shape_witness :
    (0 : ℕ) < 3 ∧ (0 : ℕ) < 2 ∧
      (FullGen.init (10, 10) (3, 2) (0, 0) none).shape =
        ((⌈((10 : ℕ) : ℚ) / ((3 : ℕ) : ℚ)⌉).toNat, (⌈((10 : ℕ) : ℚ) / ((2 : ℕ) : ℚ)⌉).toNat) :=
  ⟨by norm_num, by norm_num,
    c10_default_shape (10, 10) (3, 2) (0, 0) (by norm_num) (by norm_num)⟩

/-- C6: in the unloaded state produced by the constructors, every indexing
operation and every attempt to start iteration fails with an error surfaced
directly to the caller: TypeError from subscripting the None padding inside
__getitem__, RuntimeError from the explicit unloaded check that opens both
iterators. -/
theorem c6_unloaded_errors (imageShape step_size offset : ℕ × ℕ) (shape : Option (ℕ × ℕ))
    (index : ℤ × ℤ) (findex : ℕ × ℕ) (w : Window) (masks : List (List (List ℕ)))
    (seeded global : ℕ → ℕ) (samples : Option ℕ) :
    Generator.getitem (Generator.init imageShape) index w = .error .typeError ∧
      FullGen.getitem (FullGen.init imageShape step_size offset shape) findex w =
        .error .typeError ∧
      FullGen.iter (FullGen.init imageShape step_size offset shape) =
        .error .runtimeError ∧
      RandomSampleGenerator.iter (Generator.init imageShape) masks seeded global samples =
        .error .runtimeError :=
  ⟨rfl, rfl, rfl, rfl⟩

/-- C2 (code bug): two runs with the same seed (hence the same seeded stream)
but different states of the process-global numpy RNG draw the same classes
yet different positions, because line 163 selects the position with the
global np.random instead of the seeded RandomState.  Evaluated on a loaded
generator with one mask holding two truthy positions. -/
theorem c2_seeded_sampling_not_deterministic :
    RandomSampleGenerator.iter (Generator.load_image (Generator.init (4, 4)) [(1, 1)])
        [[[1, 1]]] (fun _ => 0) (fun _ => 0) (some 1) =
      .ok [((0, 0), (1, 1), 0)] ∧
    RandomSampleGenerator.iter (Generator.load_image (Generator.init (4, 4)) [(1, 1)])
        [[[1, 1]]] (fun _ => 0) (fun _ => 1) (some 1) =
      .ok [((0, 1), (1, 1), 0)] ∧
    ([((0, 0), (1, 1), 0)] : List ((ℕ × ℕ) × Window × ℕ)) ≠ [((0, 1), (1, 1), 0)] ∧
    (((0 : ℕ), (0 : ℕ)), ((1 : ℕ), (1 : ℕ)), (0 : ℕ)).2.2 = ((0, 1), (1, 1), 0).2.2 :=
  ⟨rfl, rfl, by decide, rfl⟩

/-- C3 (code bug): on a loaded generator, iteration with the default
samples = None raises TypeError at the first loop-guard evaluation
(sample < None), instead of the documented unbounded iteration; with a
sample count K = 3 and two stored windows over a non-degenerate mask it
yields exactly K * W = 6 items. -/
theorem c3_sample_count :
    RandomSampleGenerator.iter (Generator.load_image (Generator.init (4, 4)) [(2, 2), (1, 1)])
        [[[1, 0], [0, 1]]] (fun _ => 0) (fun t => t) none =
      .error .typeError ∧
    (RandomSampleGenerator.iter (Generator.load_image (Generator.init (4, 4)) [(2, 2), (1, 1)])
        [[[1, 0], [0, 1]]] (fun _ => 0) (fun t => t) (some 3)).map List.length =
      .ok (3 * 2) :=
  ⟨rfl, rfl⟩

/-- C1 counterexample: for the window list [(4, 4)] the code stores padding
(4, 4) — the full maximum window extent per axis — whereas the claimed
formula ceil(max window extent / 2) gives (2, 2). -/
theorem c1_padding_counterexample :
    paddingOf [(4, 4)] = (4, 4) ∧ specPaddingOf [(4, 4)] = (2, 2) ∧
      paddingOf [(4, 4)] ≠ specPaddingOf [(4, 4)] := by
  refine ⟨rfl, ?_, ?_⟩
  · have h1 : (⌈(maxExtent [((4 : ℕ), (4 : ℕ))] Prod.fst : ℚ) / 2⌉) = 2 := by
      norm_num [maxExtent]
    have h2 : (⌈(maxExtent [((4 : ℕ), (4 : ℕ))] Prod.snd : ℚ) / 2⌉) = 2 := by
      norm_num [maxExtent]
    simp [specPaddingOf, h1, h2]
  · intro h
    have h1 : (⌈(maxExtent [((4 : ℕ), (4 : ℕ))] Prod.fst : ℚ) / 2⌉) = 2 := by
      norm_num [maxExtent]
    have h2 : (⌈(maxExtent [((4 : ℕ), (4 : ℕ))] Prod.snd : ℚ) / 2⌉) = 2 := by
      norm_num [maxExtent]
    rw [show paddingOf [(4, 4)] = (4, 4) from rfl] at h
    simp [specPaddingOf, h1, h2] at h

/-- C1 (amended): for a nonempty window list, the stored padding on each axis
is exactly the maximum window extent on that axis (the ceiling of the integer
extent being the extent itself), not half of it: it bounds every configured
window extent and is attained by one of them. -/
theorem c1_padding_is_max_extent (ws : List Window) (hws : ws ≠ []) :
    (∀ w ∈ ws, w.1 ≤ (paddingOf ws).1 ∧ w.2 ≤ (paddingOf ws).2) ∧
      (∃ w ∈ ws, (paddingOf ws).1 = w.1) ∧ (∃ w ∈ ws, (paddingOf ws).2 = w.2) := by
  refine ⟨fun w hw => ⟨le_maxExtent ws Prod.fst hw, le_maxExtent ws Prod.snd hw⟩, ?_, ?_⟩
  · exact maxExtent_mem ws Prod.fst hws
  · exact maxExtent_mem ws Prod.snd hws

/-- Witness for C1: the amended padding characterization evaluated at the
concrete window list [(4, 4), (2, 6)]. -/
theorem c1_padding_is_max_extent_witness :
    ([((4 : ℕ), (4 : ℕ)), (2, 6)] ≠ ([] : List Window)) ∧
      ((∀ w ∈ [((4 : ℕ), (4 : ℕ)), (2, 6)],
          w.1 ≤ (paddingOf [(4, 4), (2, 6)]).1 ∧ w.2 ≤ (paddingOf [(4, 4), (2, 6)]).2) ∧
        (∃ w ∈ [((4 : ℕ), (4 : ℕ)), (2, 6)], (paddingOf [(4, 4), (2, 6)]).1 = w.1) ∧
        (∃ w ∈ [((4 : ℕ), (4 : ℕ)), (2, 6)], (paddingOf [(4, 4), (2, 6)]).2 = w.2)) :=
  ⟨by decide, c1_padding_is_max_extent [(4, 4), (2, 6)] (by decide)⟩

/-- Inserting grows the length by one. -/
lemma insertDesc_length (w : Window) (l : List Window) :
    (insertDesc w l).length = l.length + 1 := by
  induction l with
  | nil => rfl
  | cons x xs ih =>
    simp only [insertDesc]
    by_cases h : windowGe x w
    · simp [h, ih]
    · simp [h]

/-- The stored window list has as many entries as the input list. -/
lemma sortDesc_length (ws : List Window) : (sortDesc ws).length = ws.length := by
  induction ws with
  | nil => rfl
  | cons w ws ih => simp [sortDesc, insertDesc_length, ih]

/-- Inserting is a permutation of consing. -/
lemma insertDesc_perm (w : Window) (l : List Window) :
    List.Perm (insertDesc w l) (w :: l) := by
  induction l with
  | nil => exact List.Perm.refl _
  | cons x xs ih =>
    simp only [insertDesc]
    by_cases h : windowGe x w
    · rw [if_pos h]
      exact List.Perm.trans (List.Perm.cons x ih) (List.Perm.swap w x xs)
    · rw [if_neg h]

/-- The stored window list is a permutation of the input list. -/
lemma sortDesc_perm (ws : List Window) : List.Perm (sortDesc ws) ws := by
  induction ws with
  | nil => exact List.Perm.refl _
  | cons w ws ih =>
    exact List.Perm.trans (insertDesc_perm w (sortDesc ws)) (List.Perm.cons w ih)

/-- Unfolding of the boolean descending comparison. -/
lemma windowGe_iff (a b : Window) :
    windowGe a b = true ↔ b.1 < a.1 ∨ (a.1 = b.1 ∧ b.2 ≤ a.2) := by
  simp [windowGe]

/-- Totality of the descending comparison. -/
lemma windowGe_total (a b : Window) : windowGe a b = true ∨ windowGe b a = true := by
  rw [windowGe_iff, windowGe_iff]
  omega

/-- Transitivity of the descending comparison. -/
lemma windowGe_trans {a b c : Window} (h1 : windowGe a b = true)
    (h2 : windowGe b c = true) : windowGe a c = true := by
  rw [windowGe_iff] at h1 h2 ⊢
  omega

/-- Membership after insertion. -/
lemma mem_insertDesc {y w : Window} {l : List Window} :
    y ∈ insertDesc w l ↔ y = w ∨ y ∈ l :=
  by rw [List.Perm.mem_iff (insertDesc_perm w l), List.mem_cons]

/-- Inserting into a descending-sorted list keeps it sorted. -/
lemma pairwise_insertDesc {w : Window} {l : List Window}
    (hl : List.Pairwise (fun a b => windowGe a b = true) l) :
    List.Pairwise (fun a b => windowGe a b = true) (insertDesc w l) := by
  induction l with
  | nil => simp [insertDesc]
  | cons x xs ih =>
    rw [List.pairwise_cons] at hl
    obtain ⟨hx, hxs⟩ := hl
    simp only [insertDesc]
    by_cases h : windowGe x w
    · rw [if_pos h, List.pairwise_cons]
      refine ⟨?_, ih hxs⟩
      intro y hy
      rcases mem_insertDesc.mp hy with rfl | hy
      · exact h
      · exact hx y hy
    · rw [if_neg h, List.pairwise_cons]
      have hwx : windowGe w x = true := by
        rcases windowGe_total x w with h1 | h1
        · exact absurd h1 h
        · exact h1
      refine ⟨?_, List.pairwise_cons.mpr ⟨hx, hxs⟩⟩
      intro y hy
      rcases List.mem_cons.mp hy with rfl | hy
      · exact hwx
      · exact windowGe_trans hwx (hx y hy)

/-- The stored window list is sorted in descending lexicographic order. -/
lemma sortDesc_sorted (ws : List Window) :
    List.Pairwise (fun a b => windowGe a b = true) (sortDesc ws) := by
  induction ws with
  | nil => exact List.Pairwise.nil
  | cons w ws ih => exact pairwise_insertDesc ih

/-- Length of a flatMap over a range whose pieces all have length L. -/
lemma flatMap_range_length {α : Type} (f : ℕ → List α) (L R : ℕ)
    (hL : ∀ i, (f i).length = L) :
    ((List.range R).flatMap f).length = R * L := by
  induction R with
  | zero => simp
  | succ R ih =>
    rw [List.range_succ, List.flatMap_append, List.length_append, ih]
    simp [hL, Nat.succ_mul]

/-- Positional lookup in a flatMap over a range whose pieces all have
length L. -/
lemma flatMap_range_getElem? {α : Type} (f : ℕ → List α) (L R : ℕ)
    (hL : ∀ i, (f i).length = L) (i t : ℕ) (hi : i < R) (ht : t < L) :
    ((List.range R).flatMap f)[i * L + t]? = (f i)[t]? := by
  induction R with
  | zero => omega
  | succ R ih =>
    rw [List.range_succ, List.flatMap_append, List.getElem?_append,
      flatMap_range_length f L R hL]
    rcases Nat.lt_or_ge i R with h | h
    · have hlt : i * L + t < R * L := by
        have h1 : (i + 1) * L ≤ R * L := Nat.mul_le_mul_right L h
        have h2 : (i + 1) * L = i * L + L := by ring
        omega
      rw [if_pos hlt]
      exact ih h
    · have hiR : i = R := by omega
      subst hiR
      have hge : ¬(i * L + t < i * L) := by omega
      rw [if_neg hge]
      have hidx : i * L + t - i * L = t := by omega
      rw [hidx]
      simp

/-- C4: a loaded sweep generator iterates successfully; the yielded sequence
has exactly rows * cols * W entries; the entry at position
(i * cols + j) * W + k is (i, j, k-th stored window) — cells in row-major
order, windows within each cell in the stored order — and the stored window
list is the input windows permuted into descending lexicographic order. -/
theorem c4_sweep_iteration (g : FullGen) (ws : List Window) :
    (FullGen.load_image g ws).iter =
        .ok (fullIterIdx g.shape.1 g.shape.2 (sortDesc ws)) ∧
      (fullIterIdx g.shape.1 g.shape.2 (sortDesc ws)).length =
        g.shape.1 * g.shape.2 * ws.length ∧
      (∀ i j k w, i < g.shape.1 → j < g.shape.2 → (sortDesc ws)[k]? = some w →
        (fullIterIdx g.shape.1 g.shape.2
            (sortDesc ws))[(i * g.shape.2 + j) * ws.length + k]? = some (i, j, w)) ∧
      List.Perm (sortDesc ws) ws ∧
      List.Pairwise (fun a b => windowGe a b = true) (sortDesc ws) := by
  have hinner : ∀ i : ℕ,
      ((List.range g.shape.2).flatMap fun j =>
          (sortDesc ws).map fun w => (i, j, w)).length = g.shape.2 * ws.length := by
    intro i
    apply flatMap_range_length
    intro j
    simp [sortDesc_length]
  refine ⟨rfl, ?_, ?_, sortDesc_perm ws, sortDesc_sorted ws⟩
  · rw [fullIterIdx, flatMap_range_length _ (g.shape.2 * ws.length) _ hinner, Nat.mul_assoc]
  · intro i j k w hi hj hk
    have hklen : k < (sortDesc ws).length := by
      have := List.getElem?_eq_some.mp hk
      exact this.1
    have hkw : k < ws.length := by rwa [sortDesc_length] at hklen
    have hjt : j * ws.length + k < g.shape.2 * ws.length := by
      have h1 : (j + 1) * ws.length ≤ g.shape.2 * ws.length :=
        Nat.mul_le_mul_right ws.length hj
      have h2 : (j + 1) * ws.length = j * ws.length + ws.length := by ring
      omega
    have hsplit : (i * g.shape.2 + j) * ws.length + k =
        i * (g.shape.2 * ws.length) + (j * ws.length + k) := by ring
    rw [fullIterIdx, hsplit,
      flatMap_range_getElem? _ (g.shape.2 * ws.length) _ hinner i _ hi hjt,
      flatMap_range_getElem? _ ws.length _ (fun j => by simp [sortDesc_length]) j k hj hkw,
      List.getElem?_map, hk]
    rfl

/-- Witness for C4: iterating shape (2, 3) with windows [(1, 2), (3, 1)];
the entry of cell (1, 2) for the first stored window (3, 1) sits at position
(1 * 3 + 2) * 2 + 0. -/
theorem c4_sweep_iteration_witness :
    (1 : ℕ) < 2 ∧ (2 : ℕ) < 3 ∧ (sortDesc [(1, 2), (3, 1)])[0]? = some ((3 : ℕ), (1 : ℕ)) ∧
      (fullIterIdx 2 3 (sortDesc [(1, 2), (3, 1)]))[(1 * 3 + 2) * 2 + 0]? =
        some (1, 2, ((3 : ℕ), (1 : ℕ))) :=
  ⟨by norm_num, by norm_num, by decide,
    (c4_sweep_iteration (FullGen.init (6, 6) (2, 2) (0, 0) (some (2, 3)))
        [(1, 2), (3, 1)]).2.2.1 1 2 0 (3, 1) (by decide) (by decide) (by decide)⟩

/-- Children produced by the split loop: at most fuel children; their row
lengths sum to the rows not yet assigned (measured from the absolute row
start, which includes the parent offset); child k starts at absolute row
offset.1 + (job + k) * chunk with length
min(chunk, rows - (offset.1 + (job + k) * chunk)), positive, and inherits
the column offset and column shape. -/
lemma splitGo_spec (g : FullGen) (chunk : ℕ) (hc : 0 < chunk) :
    ∀ fuel job, g.shape.1 ≤ g.offset.1 + (job + fuel) * chunk →
      (FullGen.splitGo g chunk job fuel).length ≤ fuel ∧
      ((FullGen.splitGo g chunk job fuel).map fun c => c.shape.1).sum =
          g.shape.1 - (g.offset.1 + job * chunk) ∧
      ∀ k, ∀ hk : k < (FullGen.splitGo g chunk job fuel).length,
        ((FullGen.splitGo g chunk job fuel).get ⟨k, hk⟩).offset.1 =
            g.offset.1 + (job + k) * chunk ∧
        ((FullGen.splitGo g chunk job fuel).get ⟨k, hk⟩).shape.1 =
            min chunk (g.shape.1 - (g.offset.1 + (job + k) * chunk)) ∧
        0 < ((FullGen.splitGo g chunk job fuel).get ⟨k, hk⟩).shape.1 ∧
        ((FullGen.splitGo g chunk job fuel).get ⟨k, hk⟩).offset.2 = g.offset.2 ∧
        ((FullGen.splitGo g chunk job fuel).get ⟨k, hk⟩).shape.2 = g.shape.2 := by
  intro fuel
  induction fuel with
  | zero =>
    intro job hle
    have h00 : (job + 0) * chunk = job * chunk := by ring
    refine ⟨Nat.le_refl 0, ?_, ?_⟩
    · simp only [FullGen.splitGo, List.map_nil, List.sum_nil]
      omega
    · intro k hk
      simp only [FullGen.splitGo, List.length_nil] at hk
      omega
  | succ fuel ih =>
    intro job hle
    have hsucc : (job + (fuel + 1)) * chunk = (job + 1 + fuel) * chunk := by ring
    have hle' : g.shape.1 ≤ g.offset.1 + (job + 1 + fuel) * chunk := by omega
    have hAB : (job + 1) * chunk = job * chunk + chunk := by ring
    have h00 : (job + 0) * chunk = job * chunk := by ring
    simp only [FullGen.splitGo]
    by_cases hrl : min chunk (g.shape.1 - (g.offset.1 + job * chunk)) = 0
    · rw [if_pos hrl]
      refine ⟨Nat.zero_le _, ?_, ?_⟩
      · simp only [List.map_nil, List.sum_nil]
        omega
      · intro k hk
        simp only [List.length_nil] at hk
        omega
    · rw [if_neg hrl]
      obtain ⟨ihlen, ihsum, ihget⟩ := ih (job + 1) hle'
      refine ⟨?_, ?_, ?_⟩
      · simp only [List.length_cons]
        omega
      · simp only [List.map_cons, List.sum_cons, FullGen.init]
        rw [ihsum]
        omega
      · intro k hk
        match k with
        | 0 =>
          refine ⟨?_, ?_, ?_, rfl, rfl⟩
          · show g.offset.1 + job * chunk = g.offset.1 + (job + 0) * chunk
            omega
          · show min chunk (g.shape.1 - (g.offset.1 + job * chunk)) =
              min chunk (g.shape.1 - (g.offset.1 + (job + 0) * chunk))
            omega
          · show 0 < min chunk (g.shape.1 - (g.offset.1 + job * chunk))
            omega
        | k + 1 =>
          simp only [List.length_cons] at hk
          have hk' : k < (FullGen.splitGo g chunk (job + 1) fuel).length := by omega
          obtain ⟨h1, h2, h3, h4, h5⟩ := ihget k hk'
          have hidx : (job + 1 + k) * chunk = (job + (k + 1)) * chunk := by ring
          refine ⟨?_, ?_, h3, h4, h5⟩
          · show ((FullGen.splitGo g chunk (job + 1) fuel).get ⟨k, hk'⟩).offset.1 =
              g.offset.1 + (job + (k + 1)) * chunk
            omega
          · show ((FullGen.splitGo g chunk (job + 1) fuel).get ⟨k, hk'⟩).shape.1 =
              min chunk (g.shape.1 - (g.offset.1 + (job + (k + 1)) * chunk))
            omega

/-- C5 (amended, restricted to zero row offset): split(n) yields at most n
children; child k has row offset k * chunk and row count
min(chunk, R - k * chunk) with chunk = ceil(R / n), each child nonempty with
the parent column offset and column shape, and the row counts sum to R —
contiguous, non-overlapping coverage of the parent row range [0, R).  The
example from the spec is included: split(2) of a 5-row generator gives row
offsets 0 and 3 with row counts 3 and 2. -/
theorem c5_split_rows (g : FullGen) (n : ℕ) (hn : 0 < n) (hoff : g.offset.1 = 0) :
    (FullGen.split g n).length ≤ n ∧
      ((FullGen.split g n).map fun c => c.shape.1).sum = g.shape.1 ∧
      (∀ k, ∀ hk : k < (FullGen.split g n).length,
        ((FullGen.split g n).get ⟨k, hk⟩).offset.1 = k * pyCeilDiv g.shape.1 n ∧
        ((FullGen.split g n).get ⟨k, hk⟩).shape.1 =
            min (pyCeilDiv g.shape.1 n) (g.shape.1 - k * pyCeilDiv g.shape.1 n) ∧
        0 < ((FullGen.split g n).get ⟨k, hk⟩).shape.1 ∧
        ((FullGen.split g n).get ⟨k, hk⟩).offset.2 = g.offset.2 ∧
        ((FullGen.split g n).get ⟨k, hk⟩).shape.2 = g.shape.2) ∧
      ((FullGen.init (10, 10) (2, 2) (0, 0) (some (5, 5))).split 2).map
          (fun c => (c.offset.1, c.shape.1)) = [(0, 3), (3, 2)] := by
  have hex : ((FullGen.init (10, 10) (2, 2) (0, 0) (some (5, 5))).split 2).map
      (fun c => (c.offset.1, c.shape.1)) = [(0, 3), (3, 2)] := by decide
  by_cases hR : g.shape.1 = 0
  · have hchunk : pyCeilDiv g.shape.1 n = 0 := by
      unfold pyCeilDiv
      rw [hR]
      cases n with
      | zero => omega
      | succ m =>
        have hm : 0 + (m + 1) - 1 = m := by omega
        rw [hm]
        exact Nat.div_eq_of_lt (by omega)
    have hnil : FullGen.split g n = [] := by
      unfold FullGen.split
      rw [hchunk]
      cases n with
      | zero => rfl
      | succ m =>
        simp only [FullGen.splitGo]
        rw [if_pos (by omega)]
    refine ⟨?_, ?_, ?_, hex⟩
    · rw [hnil]
      simp
    · rw [hnil]
      simpa using hR.symm
    · intro k hk
      rw [hnil] at hk
      simp at hk
  · have hc : 0 < pyCeilDiv g.shape.1 n := by
      unfold pyCeilDiv
      have h1 : 1 ≤ (g.shape.1 + n - 1) / n := (Nat.le_div_iff_mul_le hn).mpr (by omega)
      omega
    have hfuel : g.shape.1 ≤ g.offset.1 + (0 + n) * pyCeilDiv g.shape.1 n := by
      have hbr := (pyCeilDiv_bracket g.shape.1 n hn).1
      have hzn : (0 + n) * pyCeilDiv g.shape.1 n = n * pyCeilDiv g.shape.1 n := by ring
      omega
    obtain ⟨hlen, hsum, hget⟩ := splitGo_spec g (pyCeilDiv g.shape.1 n) hc n 0 hfuel
    refine ⟨hlen, ?_, ?_, hex⟩
    · show ((FullGen.splitGo g (pyCeilDiv g.shape.1 n) 0 n).map fun c => c.shape.1).sum =
        g.shape.1
      rw [hoff] at hsum
      have hz : (0 : ℕ) + 0 * pyCeilDiv g.shape.1 n = 0 := by ring
      omega
    · intro k hk
      obtain ⟨h1, h2, h3, h4, h5⟩ := hget k hk
      rw [hoff] at h1 h2
      have hzk : (0 + k) * pyCeilDiv g.shape.1 n = k * pyCeilDiv g.shape.1 n := by ring
      refine ⟨?_, ?_, h3, h4, h5⟩
      · show ((FullGen.splitGo g (pyCeilDiv g.shape.1 n) 0 n).get ⟨k, hk⟩).offset.1 =
          k * pyCeilDiv g.shape.1 n
        omega
      · show ((FullGen.splitGo g (pyCeilDiv g.shape.1 n) 0 n).get ⟨k, hk⟩).shape.1 =
          min (pyCeilDiv g.shape.1 n) (g.shape.1 - k * pyCeilDiv g.shape.1 n)
        omega

/-- Witness for C5 at a 2-row shape split into 3 chunks: at most 3 children
whose row counts sum to 2. -/
theorem c5_split_rows_witness :
    (0 : ℕ) < 3 ∧
      ((FullGen.init (8, 8) (1, 1) (0, 0) (some (2, 8))).split 3).length ≤ 3 ∧
      (((FullGen.init (8, 8) (1, 1) (0, 0) (some (2, 8))).split 3).map
          fun c => c.shape.1).sum = 2 :=
  ⟨by norm_num,
    (c5_split_rows (FullGen.init (8, 8) (1, 1) (0, 0) (some (2, 8))) 3 (by norm_num) rfl).1,
    (c5_split_rows (FullGen.init (8, 8) (1, 1) (0, 0) (some (2, 8))) 3 (by norm_num) rfl).2.1⟩

/-- C5 counterexample: a sweep generator with nonzero row offset (as split
itself produces) of logical shape (5, 5); split(2) yields a single child of
3 rows, so the children cover only 3 of the parent's 5 rows — the claimed
full coverage of [0, R) fails because line 288 subtracts the absolute
row_offset (which includes the parent offset) from the relative shape. -/
theorem c5_split_counterexample :
    ((FullGen.init (20, 20) (1, 1) (2, 0) (some (5, 5))).split 2).length = 1 ∧
      (((FullGen.init (20, 20) (1, 1) (2, 0) (some (5, 5))).split 2).map
          fun c => c.shape.1).sum = 3 ∧
      (3 : ℕ) ≠ 5 := by
  refine ⟨by decide, by decide, by decide⟩

/-- Slice lengths under numpy semantics when the bounds already lie inside
the axis. -/
lemma pySliceLen_of_bounds (n : ℕ) (s e : ℤ) (h0 : 0 ≤ s) (hse : s ≤ e) (hn : e ≤ n) :
    pySliceLen n s e = (e - s).toNat := by
  simp only [pySliceLen]
  rw [if_neg (by omega), if_neg (by omega), min_eq_left hn,
    min_eq_left (le_trans hse hn), max_eq_right (le_trans h0 hse), max_eq_right h0]

/-- Dimensions of the pixel-indexed cached block: extent + 2 * padding per
axis. -/
lemma pixel_blockDims (imageShape pad : ℕ × ℕ) :
    blockDims (Generator.get_blocks imageShape pad) =
      (imageShape.1 + 2 * pad.1, imageShape.2 + 2 * pad.2) := by
  simp only [blockDims, Generator.get_blocks, Prod.mk.injEq]
  constructor <;> omega

/-- Dimensions of the grid-indexed cached block: 2 * padding + shape * step
per axis. -/
lemma full_blockDims (g : FullGen) (pad : ℕ × ℕ) :
    blockDims (FullGen.get_blocks g pad) =
      (2 * pad.1 + g.shape.1 * g.step_size.1, 2 * pad.2 + g.shape.2 * g.step_size.2) := by
  simp only [blockDims, FullGen.get_blocks, Prod.mk.injEq]
  constructor <;> omega

/-- One axis of the pixel policy: for a valid index and a window no larger
than the padding, the slice stays inside the cached axis and selects exactly
the window extent. -/
lemma pixel_axis_bounds (pad extent idx w : ℕ) (hw : 0 < w) (hpad : w ≤ pad)
    (hidx : idx < extent) :
    0 ≤ (Generator.get_slices_axis pad (idx : ℤ) w).1 ∧
      (Generator.get_slices_axis pad (idx : ℤ) w).2 ≤ ((extent + 2 * pad : ℕ) : ℤ) ∧
      pySliceLen (extent + 2 * pad) (Generator.get_slices_axis pad (idx : ℤ) w).1
        (Generator.get_slices_axis pad (idx : ℤ) w).2 = w := by
  simp only [Generator.get_slices_axis]
  have h0 : 0 ≤ (pad : ℤ) + (idx : ℤ) - ((w / 2 : ℕ) : ℤ) := by omega
  have hse : (pad : ℤ) + (idx : ℤ) - ((w / 2 : ℕ) : ℤ) ≤
      (pad : ℤ) + (idx : ℤ) - ((w / 2 : ℕ) : ℤ) + (w : ℤ) := by omega
  have hn : (pad : ℤ) + (idx : ℤ) - ((w / 2 : ℕ) : ℤ) + (w : ℤ) ≤
      ((extent + 2 * pad : ℕ) : ℤ) := by omega
  refine ⟨h0, hn, ?_⟩
  rw [pySliceLen_of_bounds _ _ _ h0 hse hn]
  omega

/-- One axis of the step policy: for a valid grid index, positive step and a
window no larger than the padding, the slice stays inside the cached axis and
selects exactly the window extent. -/
lemma full_axis_bounds (pad step shape idx w : ℕ) (hw : 0 < w) (hpad : w ≤ pad)
    (hstep : 0 < step) (hidx : idx < shape) :
    0 ≤ (FullGen.get_slices_axis pad step idx w).1 ∧
      (FullGen.get_slices_axis pad step idx w).2 ≤ ((2 * pad + shape * step : ℕ) : ℤ) ∧
      pySliceLen (2 * pad + shape * step) (FullGen.get_slices_axis pad step idx w).1
        (FullGen.get_slices_axis pad step idx w).2 = w := by
  simp only [FullGen.get_slices_axis]
  have hmul : (2 * idx + 1) * step = 2 * (idx * step) + step := by ring
  have hle : idx * step + step ≤ shape * step := by
    have h := Nat.mul_le_mul_right step (show idx + 1 ≤ shape from hidx)
    calc idx * step + step = (idx + 1) * step := by ring
      _ ≤ shape * step := h
  rw [hmul]
  have h0 : 0 ≤ (pad : ℤ) + (((2 * (idx * step) + step) / 2 : ℕ) : ℤ) -
      ((w / 2 : ℕ) : ℤ) := by omega
  have hse : (pad : ℤ) + (((2 * (idx * step) + step) / 2 : ℕ) : ℤ) - ((w / 2 : ℕ) : ℤ) ≤
      (pad : ℤ) + (((2 * (idx * step) + step) / 2 : ℕ) : ℤ) - ((w / 2 : ℕ) : ℤ) +
        (w : ℤ) := by omega
  have hn : (pad : ℤ) + (((2 * (idx * step) + step) / 2 : ℕ) : ℤ) - ((w / 2 : ℕ) : ℤ) +
      (w : ℤ) ≤ ((2 * pad + shape * step : ℕ) : ℤ) := by omega
  refine ⟨h0, hn, ?_⟩
  rw [pySliceLen_of_bounds _ _ _ h0 hse hn]
  omega

/-- C7: on a loaded generator, for every window in the configured list
(windows with positive extents) and every index inside the logical shape,
the computed slice ranges lie inside the cached block on both axes and the
extracted sub-array has exactly the requested window shape, for the
pixel-indexed generator and for the grid-indexed generator alike. -/
theorem c7_window_extraction (imgShape : ℕ × ℕ) (g : FullGen) (ws : List Window)
    (w : Window) (idx findex : ℕ × ℕ) (hw : w ∈ ws)
    (hpos : ∀ u ∈ ws, 0 < u.1 ∧ 0 < u.2)
    (hidx1 : idx.1 < imgShape.1) (hidx2 : idx.2 < imgShape.2)
    (hstep1 : 0 < g.step_size.1) (hstep2 : 0 < g.step_size.2)
    (hf1 : findex.1 < g.shape.1) (hf2 : findex.2 < g.shape.2) :
    (0 ≤ (Generator.get_slices (paddingOf ws) ((idx.1 : ℤ), (idx.2 : ℤ)) w).1.1 ∧
      (Generator.get_slices (paddingOf ws) ((idx.1 : ℤ), (idx.2 : ℤ)) w).1.2 ≤
        ((blockDims (Generator.get_blocks imgShape (paddingOf ws))).1 : ℤ) ∧
      0 ≤ (Generator.get_slices (paddingOf ws) ((idx.1 : ℤ), (idx.2 : ℤ)) w).2.1 ∧
      (Generator.get_slices (paddingOf ws) ((idx.1 : ℤ), (idx.2 : ℤ)) w).2.2 ≤
        ((blockDims (Generator.get_blocks imgShape (paddingOf ws))).2 : ℤ)) ∧
    Generator.getitem (Generator.load_image (Generator.init imgShape) ws)
        ((idx.1 : ℤ), (idx.2 : ℤ)) w = .ok w ∧
    (0 ≤ (FullGen.get_slices g (paddingOf ws) findex w).1.1 ∧
      (FullGen.get_slices g (paddingOf ws) findex w).1.2 ≤
        ((blockDims (FullGen.get_blocks g (paddingOf ws))).1 : ℤ) ∧
      0 ≤ (FullGen.get_slices g (paddingOf ws) findex w).2.1 ∧
      (FullGen.get_slices g (paddingOf ws) findex w).2.2 ≤
        ((blockDims (FullGen.get_blocks g (paddingOf ws))).2 : ℤ)) ∧
    FullGen.getitem (FullGen.load_image g ws) findex w = .ok w := by
  obtain ⟨hw1, hw2⟩ := hpos w hw
  have hpad1 : w.1 ≤ (paddingOf ws).1 := le_maxExtent ws Prod.fst hw
  have hpad2 : w.2 ≤ (paddingOf ws).2 := le_maxExtent ws Prod.snd hw
  obtain ⟨pa0, pa2, paL⟩ :=
    pixel_axis_bounds (paddingOf ws).1 imgShape.1 idx.1 w.1 hw1 hpad1 hidx1
  obtain ⟨pb0, pb2, pbL⟩ :=
    pixel_axis_bounds (paddingOf ws).2 imgShape.2 idx.2 w.2 hw2 hpad2 hidx2
  obtain ⟨fa0, fa2, faL⟩ :=
    full_axis_bounds (paddingOf ws).1 g.step_size.1 g.shape.1 findex.1 w.1
      hw1 hpad1 hstep1 hf1
  obtain ⟨fb0, fb2, fbL⟩ :=
    full_axis_bounds (paddingOf ws).2 g.step_size.2 g.shape.2 findex.2 w.2
      hw2 hpad2 hstep2 hf2
  have hpdims := pixel_blockDims imgShape (paddingOf ws)
  have hfdims := full_blockDims g (paddingOf ws)
  refine ⟨⟨?_, ?_, ?_, ?_⟩, ?_, ⟨?_, ?_, ?_, ?_⟩, ?_⟩
  · exact pa0
  · rw [hpdims]
    exact pa2
  · exact pb0
  · rw [hpdims]
    exact pb2
  · show Except.ok
        (pySliceLen (blockDims (Generator.get_blocks imgShape (paddingOf ws))).1
          (Generator.get_slices (paddingOf ws) ((idx.1 : ℤ), (idx.2 : ℤ)) w).1.1
          (Generator.get_slices (paddingOf ws) ((idx.1 : ℤ), (idx.2 : ℤ)) w).1.2,
         pySliceLen (blockDims (Generator.get_blocks imgShape (paddingOf ws))).2
          (Generator.get_slices (paddingOf ws) ((idx.1 : ℤ), (idx.2 : ℤ)) w).2.1
          (Generator.get_slices (paddingOf ws) ((idx.1 : ℤ), (idx.2 : ℤ)) w).2.2) =
      Except.ok w
    rw [hpdims]
    exact congrArg Except.ok (Prod.ext (by exact paL) (by exact pbL))
  · exact fa0
  · rw [hfdims]
    exact fa2
  · exact fb0
  · rw [hfdims]
    exact fb2
  · show Except.ok
        (pySliceLen (blockDims (FullGen.get_blocks g (paddingOf ws))).1
          (FullGen.get_slices g (paddingOf ws) findex w).1.1
          (FullGen.get_slices g (paddingOf ws) findex w).1.2,
         pySliceLen (blockDims (FullGen.get_blocks g (paddingOf ws))).2
          (FullGen.get_slices g (paddingOf ws) findex w).2.1
          (FullGen.get_slices g (paddingOf ws) findex w).2.2) =
      Except.ok w
    rw [hfdims]
    exact congrArg Except.ok (Prod.ext (by exact faL) (by exact fbL))

/-- Witness for C7: image (10, 10), windows [(4, 4)], pixel index (0, 0), and
a grid generator with step (2, 2) and default shape (5, 5) at grid index
(0, 0); both extractions return a (4, 4) array. -/
theorem c7_window_extraction_witness :
    (((4 : ℕ), (4 : ℕ)) ∈ [((4 : ℕ), (4 : ℕ))]) ∧
      Generator.getitem (Generator.load_image (Generator.init (10, 10)) [(4, 4)])
        (((0 : ℕ) : ℤ), ((0 : ℕ) : ℤ)) (4, 4) = .ok (4, 4) ∧
      FullGen.getitem
        (FullGen.load_image (FullGen.init (10, 10) (2, 2) (0, 0) none) [(4, 4)])
        (0, 0) (4, 4) = .ok (4, 4) :=
  ⟨by decide,
    (c7_window_extraction (10, 10) (FullGen.init (10, 10) (2, 2) (0, 0) none)
        [(4, 4)] (4, 4) (0, 0) (0, 0) (by decide) (by decide) (by decide) (by decide)
        (by decide) (by decide) (by decide) (by decide)).2.1,
    (c7_window_extraction (10, 10) (FullGen.init (10, 10) (2, 2) (0, 0) none)
        [(4, 4)] (4, 4) (0, 0) (0, 0) (by decide) (by decide) (by decide) (by decide)
        (by decide) (by decide) (by decide) (by decide)).2.2.2⟩

end Satsense
